import Mathlib

/-!
Shallow embedding of `numba/rewrites/static_raise.py` (class `RewriteConstRaises`).

The pass rewrites `raise(value)` / `tryraise(value)` IR statements, where
`value` resolves to a compile-time constant, into `static_raise` /
`static_tryraise` statements that carry the exception type and constant
constructor arguments directly.

Python-level values that the constant-inference oracle can produce are
modelled by the inductive `Const`.  Python exceptions thrown by the pass
(`NotImplementedError`, `IndexError`, `TypeError`, `ConstantInferenceError`,
`ValueError`) are modelled by explicit error types, and fallible functions
return `Except`.  The mutable per-instance state (`self.raises`,
`self.tryraises`, `self.block`) is modelled by the `MatchState` structure
threaded explicitly between `match_rewrite` and `apply_rewrite`.
-/

set_option autoImplicit false

/-- A Python class object, identified nominally by its name together with the
names of its (transitive) base classes, enough to decide `issubclass`. -/
structure PyType where
  name : String
  bases : List String
deriving DecidableEq

/-- A constant value as produced by the constant-inference oracle:
a class object, a tuple, or a bare non-type value (int / str / None). -/
inductive Const where
  | type (t : PyType)
  | tuple (elems : List Const)
  | int (n : Int)
  | str (s : String)
  | pyNone

mutual

/-- Boolean equality on `Const`, defined by hand because of the nested
`List Const`. -/
def Const.ceq : Const → Const → Bool
  | .type a, .type b => decide (a = b)
  | .tuple xs, .tuple ys => Const.ceqList xs ys
  | .int m, .int n => decide (m = n)
  | .str a, .str b => decide (a = b)
  | .pyNone, .pyNone => true
  | _, _ => false

/-- Boolean equality on lists of `Const`, mutually with `Const.ceq`. -/
def Const.ceqList : List Const → List Const → Bool
  | [], [] => true
  | x :: xs, y :: ys => Const.ceq x y && Const.ceqList xs ys
  | _, _ => false

end

mutual

theorem Const.ceq_eq : ∀ (a b : Const), Const.ceq a b = true ↔ a = b
  | .type a, b => by cases b <;> simp [Const.ceq]
  | .tuple xs, b => by
    cases b <;> simp [Const.ceq]
    exact Const.ceqList_eq xs _
  | .int m, b => by cases b <;> simp [Const.ceq]
  | .str a, b => by cases b <;> simp [Const.ceq]
  | .pyNone, b => by cases b <;> simp [Const.ceq]

theorem Const.ceqList_eq : ∀ (xs ys : List Const), Const.ceqList xs ys = true ↔ xs = ys
  | [], ys => by cases ys <;> simp [Const.ceqList]
  | x :: xs, ys => by
    cases ys with
    | nil => simp [Const.ceqList]
    | cons y ys =>
      simp only [Const.ceqList, Bool.and_eq_true, List.cons.injEq]
      exact and_congr (Const.ceq_eq x y) (Const.ceqList_eq xs ys)

end

instance : DecidableEq Const := fun a b => decidable_of_iff _ (Const.ceq_eq a b)

/-- `isinstance(const, tuple)`. -/
def Const.is_tuple : Const → Bool
  | .tuple _ => true
  | _ => false

/-- `isinstance(const, type) and issubclass(const, Exception)`
(`RewriteConstRaises._is_exception_type`, static_raise.py lines 17-18).
`issubclass` is the nominal test: the class is `Exception` itself or has
`Exception` among its base classes. -/
def is_exception_type : Const → Bool
  | .type t => t.name == "Exception" || t.bases.contains "Exception"
  | _ => false

/-- Python's `tuple(x)` conversion: succeeds on iterables (tuples and
strings, the iterable `Const` shapes), yielding the element sequence;
on a non-iterable value it raises `TypeError` (modelled as `none`). -/
def py_tuple : Const → Option (List Const)
  | .tuple xs => some xs
  | .str s => some (s.data.map fun ch => Const.str (String.mk [ch]))
  | _ => none

/-- Python exceptions that can escape `_break_constant`. -/
inductive ExcError where
  /-- `NotImplementedError("unsupported exception constant %r" % value)`;
  carries the offending value. -/
  | notImplemented (offending : Const)
  /-- `IndexError` from `const[0]` / `const[1]` on a too-short tuple. -/
  | indexError
  /-- `TypeError` from `tuple(x)` on a non-iterable `x`; carries `x`. -/
  | typeError (arg : Const)
deriving DecidableEq

/-- `RewriteConstRaises._break_constant` (static_raise.py lines 20-33):
decompose a constant into `(exception class, optional argument tuple)`.
The evaluation order of the source is kept: in the tuple branch `const[0]`
is read first (inside `_is_exception_type`), then `const[1]`, then
`tuple(const[1])`. -/
def break_constant (const : Const) : Except ExcError (Const × Option (List Const)) :=
  match const with
  | .tuple elems =>
    match elems.get? 0 with
    | none => .error .indexError
    | some c0 =>
      if !(is_exception_type c0) then .error (.notImplemented c0)
      else
        match elems.get? 1 with
        | none => .error .indexError
        | some c1 =>
          match py_tuple c1 with
          | none => .error (.typeError c1)
          | some args => .ok (c0, some args)
  | c =>
    if is_exception_type c then .ok (c, none)
    else .error (.notImplemented c)

example :
    break_constant (.tuple [.type ⟨"ValueError", ["Exception", "BaseException"]⟩,
      .tuple [.str "bad"]])
      = .ok (.type ⟨"ValueError", ["Exception", "BaseException"]⟩, some [.str "bad"]) := rfl

example : break_constant (.int 3) = .error (.notImplemented (.int 3)) := rfl

example : break_constant (.tuple []) = .error .indexError := rfl

/-- A source location tag (`numba.ir.Loc`). -/
structure Loc where
  filename : String
  line : Nat
deriving DecidableEq

/-- A variable reference (operand of a raise), identified by name. -/
abbrev Var := String

/-- IR instructions, a tagged union over the variants the pass touches
(`ir.Raise`, `ir.TryRaise`, `ir.StaticRaise`, `ir.StaticTryRaise`) plus an
opaque `other` variant for every other statement kind.  Each carries its
source location. -/
inductive Inst where
  | raise (exception : Option Var) (loc : Loc)
  | tryRaise (exception : Option Var) (loc : Loc)
  | staticRaise (exc_class : Option Const) (exc_args : Option (List Const)) (loc : Loc)
  | staticTryRaise (exc_class : Option Const) (exc_args : Option (List Const)) (loc : Loc)
  | other (tag : Nat) (loc : Loc)
deriving DecidableEq

/-- `inst.loc`. -/
def Inst.loc : Inst → Loc
  | .raise _ l => l
  | .tryRaise _ l => l
  | .staticRaise _ _ l => l
  | .staticTryRaise _ _ l => l
  | .other _ l => l

/-- `isinstance(inst, ir.Raise)`. -/
def Inst.is_raise : Inst → Bool
  | .raise _ _ => true
  | _ => false

/-- `isinstance(inst, ir.TryRaise)`. -/
def Inst.is_tryraise : Inst → Bool
  | .tryRaise _ _ => true
  | _ => false

/-- `inst.exception`, the optional operand of the two raise-like variants
(only ever read on those variants). -/
def Inst.exception : Inst → Option Var
  | .raise e _ => e
  | .tryRaise e _ => e
  | _ => none

/-- A basic block (`numba.ir.Block`): an ordered instruction list plus the
scope/loc data that `Block.copy` carries over. -/
structure Block where
  body : List Inst
  scope : Nat
  loc : Loc
deriving DecidableEq

/-- `Block.copy`: a fresh block with the same scope, loc and body. -/
def Block.copy (b : Block) : Block :=
  { b with body := b.body }

/-- `Block.clear`: empty the body. -/
def Block.clear (b : Block) : Block :=
  { b with body := [] }

/-- `Block.append(inst)`. -/
def Block.append (b : Block) (inst : Inst) : Block :=
  { b with body := b.body ++ [inst] }

/-- `block.find_insts((ir.Raise, ir.TryRaise))`: the raise-like instructions
of the body, in order. -/
def find_insts (body : List Inst) : List Inst :=
  body.filter fun i => i.is_raise || i.is_tryraise

/-- The `(exc_type, exc_args)` pair recorded for a matched instruction. -/
abbrev ExcPair := Option Const × Option (List Const)

/-- The `self.raises` / `self.tryraises` dictionaries, as association lists
with distinct keys. -/
abbrev InstMap := List (Inst × ExcPair)

/-- Dictionary lookup (`inst in d` / `d[inst]`). -/
def lookupA : InstMap → Inst → Option ExcPair
  | [], _ => none
  | (k, v) :: rest, k' => if k = k' then some v else lookupA rest k'

/-- Dictionary store `d[inst] = pair`: replaces the binding if the key is
present, appends it otherwise (insertion order, like a Python dict). -/
def insertA : InstMap → Inst → ExcPair → InstMap
  | [], k, v => [(k, v)]
  | (k', v') :: rest, k, v =>
    if k' = k then (k, v) :: rest else (k', v') :: insertA rest k v

/-- Errors that can escape `RewriteConstRaises.match`. -/
inductive RewriteError where
  /-- `ConstantInferenceError` from `func_ir.infer_constant` (the external
  oracle could not resolve the operand); carries the operand. -/
  | constantInference (v : Var)
  /-- An error propagated from `_break_constant`. -/
  | excError (e : ExcError)
  /-- `ValueError('unexpected: ...')` for a non-raise instruction
  (unreachable after `find_insts`). -/
  | valueError
deriving DecidableEq

/-- The constant-inference oracle `func_ir.infer_constant`: external to this
component; `none` models `ConstantInferenceError`. -/
abbrev Oracle := Var → Option Const

/-- Lines 42-48 of `match`: compute the `(exc_type, exc_args)` pair for one
raise-like instruction's operand — `(None, None)` for a re-raise, otherwise
resolve the operand through the oracle and run `_break_constant`. -/
def classify_exc (oracle : Oracle) (exc : Option Var) : Except RewriteError ExcPair :=
  match exc with
  | none => .ok (none, none)
  | some v =>
    match oracle v with
    | none => .error (.constantInference v)
    | some const =>
      match break_constant const with
      | .error e => .error (.excError e)
      | .ok (exc_type, exc_args) => .ok (some exc_type, exc_args)

/-- The loop of `match` (lines 41-54) over the raise-like instructions: on
the first error the loop aborts, returning the partially filled
dictionaries together with the error. -/
def match_loop (oracle : Oracle) :
    List Inst → InstMap → InstMap → InstMap × InstMap × Option RewriteError
  | [], rs, ts => (rs, ts, none)
  | inst :: rest, rs, ts =>
    match classify_exc oracle inst.exception with
    | .error e => (rs, ts, some e)
    | .ok p =>
      if inst.is_raise then match_loop oracle rest (insertA rs inst p) ts
      else if inst.is_tryraise then match_loop oracle rest rs (insertA ts inst p)
      else (rs, ts, some .valueError)

/-- The state the rewriter instance carries between `match` and `apply`
(`self.raises`, `self.tryraises`, `self.block`). -/
structure MatchState where
  raises : InstMap
  tryraises : InstMap
  block : Block
deriving DecidableEq

/-- `RewriteConstRaises.match` (lines 35-56): rebuild the two dictionaries
from scratch, remember the block, scan its raise-like instructions, and on
success report whether the combined number of recorded entries is nonzero.
The instance state (partial on error, exactly as the mutating source leaves
it) is returned alongside the `Except` result. -/
def match_rewrite (oracle : Oracle) (block : Block) :
    MatchState × Except RewriteError Bool :=
  match match_loop oracle (find_insts block.body) [] [] with
  | (rs, ts, err) =>
    let st : MatchState := ⟨rs, ts, block⟩
    match err with
    | some e => (st, .error e)
    | none => (st, .ok (decide (0 < rs.length + ts.length)))

/-- The per-instruction substitution `apply` performs: a key of
`self.raises` becomes `ir.StaticRaise(exc_type, exc_args, inst.loc)`, a key
of `self.tryraises` becomes `ir.StaticTryRaise(...)`, anything else is kept
as is. -/
def subst_inst (st : MatchState) (inst : Inst) : Inst :=
  match lookupA st.raises inst with
  | some (exc_type, exc_args) => .staticRaise exc_type exc_args inst.loc
  | none =>
    match lookupA st.tryraises inst with
    | some (exc_type, exc_args) => .staticTryRaise exc_type exc_args inst.loc
    | none => inst

/-- `RewriteConstRaises.apply` (lines 58-75): build a new block
(`self.block.copy()` then `clear()`), walk `self.block.body` in order
appending either the static replacement or the original instruction, and
return it.  The instance state is threaded through and returned so that
non-mutation of the original block is an explicit theorem, not a modelling
assumption. -/
def apply_rewrite (st : MatchState) : Block × MatchState :=
  let new_block := Block.clear (Block.copy st.block)
  let result := st.block.body.foldl
    (fun nb inst => nb.append (subst_inst st inst)) new_block
  (result, st)

/-! ## Lemmas about the classifier -/

/-- `_break_constant` on a value that is not a tuple: the `elif`/`else`
branch of lines 29-33. -/
theorem break_constant_not_tuple (c : Const) (h : c.is_tuple = false) :
    break_constant c =
      if is_exception_type c then .ok (c, none) else .error (.notImplemented c) := by
  cases c <;> simp_all [break_constant, Const.is_tuple]

/-- `_break_constant` on the empty tuple: `const[0]` is out of range. -/
theorem break_constant_nil : break_constant (.tuple []) = .error .indexError := rfl

/-- `_break_constant` on a nonempty tuple with a non-exception first
element. -/
theorem break_constant_cons_bad (c0 : Const) (rest : List Const)
    (h : is_exception_type c0 = false) :
    break_constant (.tuple (c0 :: rest)) = .error (.notImplemented c0) := by
  simp [break_constant, h]

/-- `_break_constant` on a one-element tuple with an exception-type
element: `const[1]` is out of range. -/
theorem break_constant_one (c0 : Const) (h : is_exception_type c0 = true) :
    break_constant (.tuple [c0]) = .error .indexError := by
  simp [break_constant, h]

/-- `_break_constant` on a tuple with at least two elements and an
exception-type first element. -/
theorem break_constant_two (c0 c1 : Const) (rest : List Const)
    (h : is_exception_type c0 = true) :
    break_constant (.tuple (c0 :: c1 :: rest)) =
      match py_tuple c1 with
      | none => .error (.typeError c1)
      | some args => .ok (c0, some args) := by
  simp [break_constant, h]

/-- With an exception-type head, `_break_constant` never raises the
`NotImplementedError` classification error. -/
theorem break_constant_good_head (c0 : Const) (rest : List Const)
    (h : is_exception_type c0 = true) (x : Const) :
    break_constant (.tuple (c0 :: rest)) ≠ .error (.notImplemented x) := by
  cases rest with
  | nil => rw [break_constant_one c0 h]; simp
  | cons c1 rest' =>
    rw [break_constant_two c0 c1 rest' h]
    cases py_tuple c1 <;> simp

/-! ## Claim theorems about the classifier -/

/-- C1: a constant that is a two-element tuple whose first element is an
exception type and whose second element is a tuple of constants is broken
into the pair of that exception type and the argument tuple, preserving
argument order and count exactly. -/
theorem break_constant_type_args (c0 : Const) (args : List Const)
    (h : is_exception_type c0 = true) :
    break_constant (.tuple [c0, .tuple args]) = .ok (c0, some args) := by
  simp [break_constant, h, py_tuple]

/-- Witness for C1 at `(ValueError, ("bad", 2))`. -/
theorem break_constant_type_args_witness :
    is_exception_type (.type ⟨"ValueError", ["Exception", "BaseException"]⟩) = true ∧
    break_constant (.tuple [.type ⟨"ValueError", ["Exception", "BaseException"]⟩,
        .tuple [.str "bad", .int 2]])
      = .ok (.type ⟨"ValueError", ["Exception", "BaseException"]⟩,
          some [.str "bad", .int 2]) :=
  ⟨by decide, break_constant_type_args _ _ (by decide)⟩

/-- C9: on the empty tuple, `_break_constant` neither succeeds nor raises
the `NotImplementedError` classification error: `const[0]` (read inside
`_is_exception_type`) raises `IndexError` first. -/
theorem break_constant_empty_tuple :
    break_constant (.tuple []) = .error .indexError := rfl

/-- C2 (counterexample): a **three**-element tuple whose first element is
an exception type is accepted by `_break_constant` (the extra element is
ignored), contradicting the claim that the classifier succeeds only for a
bare exception type or a two-element aggregate. -/
theorem break_constant_three_element_success :
    break_constant (.tuple [.type ⟨"ValueError", ["Exception", "BaseException"]⟩,
        .tuple [.str "bad"], .int 7])
      = .ok (.type ⟨"ValueError", ["Exception", "BaseException"]⟩, some [.str "bad"]) := rfl

/-- C2 (amended): full characterization of `_break_constant`'s
`NotImplementedError` outcomes and of its successes.  The
unsupported-exception-constant error is raised exactly for a *nonempty*
tuple whose first element is not an exception type (carrying that first
element) or for a non-tuple value that is not an exception type (carrying
the value itself); a success is either a bare exception type paired with
`none`, or comes from a tuple with *at least two* elements whose first
element is an exception type and whose second element is iterable, the
remaining elements being ignored. -/
theorem break_constant_classification (c x t : Const) (a : Option (List Const)) :
    (break_constant c = .error (.notImplemented x) ↔
      ((∃ rest, c = .tuple (x :: rest)) ∧ is_exception_type x = false) ∨
      (x = c ∧ c.is_tuple = false ∧ is_exception_type c = false)) ∧
    (break_constant c = .ok (t, a) ↔
      (c.is_tuple = false ∧ is_exception_type c = true ∧ t = c ∧ a = none) ∨
      (∃ c1 rest args, c = .tuple (t :: c1 :: rest) ∧ is_exception_type t = true ∧
        py_tuple c1 = some args ∧ a = some args)) := by
  constructor
  · cases c with
    | tuple elems =>
      cases elems with
      | nil =>
        rw [break_constant_nil]
        simp [Const.is_tuple]
      | cons c0 rest =>
        cases hexc : is_exception_type c0 with
        | false =>
          rw [break_constant_cons_bad c0 rest hexc]
          constructor
          · intro h
            injection h with he
            injection he with hx
            subst hx
            exact Or.inl ⟨⟨rest, rfl⟩, hexc⟩
          · rintro (⟨⟨rest', hr⟩, hx⟩ | ⟨rfl, hnt, _⟩)
            · injection hr with hl
              injection hl with h1 h2
              rw [h1]
            · simp [Const.is_tuple] at hnt
        | true =>
          constructor
          · intro h
            exact absurd h (break_constant_good_head c0 rest hexc x)
          · rintro (⟨⟨rest', hr⟩, hx⟩ | ⟨rfl, hnt, _⟩)
            · injection hr with hl
              injection hl with h1 h2
              subst h1
              rw [hexc] at hx
              cases hx
            · simp [Const.is_tuple] at hnt
    | type pt =>
      rw [break_constant_not_tuple (.type pt) rfl]
      cases hexc : is_exception_type (.type pt) with
      | false =>
        simp [Const.is_tuple, hexc]
        exact eq_comm
      | true => simp [Const.is_tuple, hexc]
    | int n =>
      rw [break_constant_not_tuple (.int n) rfl]
      simp [is_exception_type, Const.is_tuple]
      exact eq_comm
    | str s =>
      rw [break_constant_not_tuple (.str s) rfl]
      simp [is_exception_type, Const.is_tuple]
      exact eq_comm
    | pyNone =>
      rw [break_constant_not_tuple .pyNone rfl]
      simp [is_exception_type, Const.is_tuple]
      exact eq_comm
  · cases c with
    | tuple elems =>
      cases elems with
      | nil =>
        rw [break_constant_nil]
        simp [Const.is_tuple]
      | cons c0 rest =>
        cases hexc : is_exception_type c0 with
        | false =>
          rw [break_constant_cons_bad c0 rest hexc]
          constructor
          · intro h
            cases h
          · rintro (⟨hnt, _⟩ | ⟨c1', rest'', args', hr, hexct, _, _⟩)
            · simp [Const.is_tuple] at hnt
            · injection hr with hl
              injection hl with h1 h2
              rw [← h1] at hexct
              rw [hexc] at hexct
              cases hexct
        | true =>
          cases rest with
          | nil =>
            rw [break_constant_one c0 hexc]
            simp [Const.is_tuple]
          | cons c1 rest' =>
            rw [break_constant_two c0 c1 rest' hexc]
            cases hpy : py_tuple c1 with
            | none =>
              constructor
              · intro h
                simp at h
              · rintro (⟨hnt, _⟩ | ⟨c1', rest'', args', hr, _, hpy', _⟩)
                · simp [Const.is_tuple] at hnt
                · injection hr with hl
                  injection hl with h1 hl2
                  injection hl2 with h2 h3
                  rw [← h2] at hpy'
                  rw [hpy] at hpy'
                  cases hpy'
            | some args =>
              constructor
              · intro h
                simp only [Except.ok.injEq, Prod.mk.injEq] at h
                obtain ⟨h1, h2⟩ := h
                subst h1
                subst h2
                exact Or.inr ⟨c1, rest', args, rfl, hexc, hpy, rfl⟩
              · rintro (⟨hnt, _⟩ | ⟨c1', rest'', args', hr, hexct, hpy', ha⟩)
                · simp [Const.is_tuple] at hnt
                · injection hr with hl
                  injection hl with h1 hl2
                  injection hl2 with h2 h3
                  subst h1
                  subst h2
                  rw [hpy] at hpy'
                  injection hpy' with h4
                  subst h4
                  rw [ha]
    | type pt =>
      rw [break_constant_not_tuple (.type pt) rfl]
      cases hexc : is_exception_type (.type pt) with
      | false => simp [Const.is_tuple, hexc]
      | true =>
        simp [Const.is_tuple, hexc]
        exact and_congr eq_comm eq_comm
    | int n =>
      rw [break_constant_not_tuple (.int n) rfl]
      simp [is_exception_type, Const.is_tuple]
    | str s =>
      rw [break_constant_not_tuple (.str s) rfl]
      simp [is_exception_type, Const.is_tuple]
    | pyNone =>
      rw [break_constant_not_tuple .pyNone rfl]
      simp [is_exception_type, Const.is_tuple]

/-- C5: for a constant that is not a tuple, `_break_constant` succeeds with
`(constant, none)` exactly when the constant is an exception type, and the
exception-type test is the nominal one: the value is a class object whose
name is `Exception` or whose base classes include `Exception`. -/
theorem bare_constant_classification (c : Const) (h : c.is_tuple = false) :
    (break_constant c = .ok (c, none) ↔ is_exception_type c = true) ∧
    (is_exception_type c = true ↔
      ∃ pt, c = .type pt ∧ (pt.name = "Exception" ∨ pt.bases.contains "Exception" = true)) := by
  constructor
  · rw [break_constant_not_tuple c h]
    cases hexc : is_exception_type c <;> simp
  · cases c <;> simp_all [is_exception_type, Const.is_tuple]

/-- Witness for C5 at the bare `ValueError` class. -/
theorem bare_constant_classification_witness :
    Const.is_tuple (.type ⟨"ValueError", ["Exception", "BaseException"]⟩) = false ∧
    ((break_constant (.type ⟨"ValueError", ["Exception", "BaseException"]⟩)
        = .ok (.type ⟨"ValueError", ["Exception", "BaseException"]⟩, none) ↔
      is_exception_type (.type ⟨"ValueError", ["Exception", "BaseException"]⟩) = true) ∧
    (is_exception_type (.type ⟨"ValueError", ["Exception", "BaseException"]⟩) = true ↔
      ∃ pt, (Const.type ⟨"ValueError", ["Exception", "BaseException"]⟩) = .type pt ∧
        (pt.name = "Exception" ∨ pt.bases.contains "Exception" = true))) :=
  ⟨rfl, bare_constant_classification _ rfl⟩

/-! ## Lemmas about the match-result dictionaries -/

/-- Lookup after store. -/
theorem lookupA_insertA (m : InstMap) (k k' : Inst) (v : ExcPair) :
    lookupA (insertA m k v) k' = if k = k' then some v else lookupA m k' := by
  induction m with
  | nil => simp [insertA, lookupA]
  | cons kv rest ih =>
    obtain ⟨k0, v0⟩ := kv
    by_cases h0 : k0 = k
    · subst h0
      by_cases h1 : k0 = k'
      · subst h1; simp [insertA, lookupA]
      · simp [insertA, lookupA, h1]
    · by_cases h1 : k = k'
      · subst h1
        simp [insertA, lookupA, h0, ih, Ne.symm h0]
      · by_cases h2 : k0 = k'
        · subst h2; simp [insertA, lookupA, h0, h1, ih]
        · simp [insertA, lookupA, h0, h1, h2, ih]

/-- A successful lookup names an entry of the dictionary. -/
theorem lookupA_mem (m : InstMap) (k : Inst) (v : ExcPair)
    (h : lookupA m k = some v) : (k, v) ∈ m := by
  induction m with
  | nil => simp [lookupA] at h
  | cons kv rest ih =>
    obtain ⟨k0, v0⟩ := kv
    by_cases h0 : k0 = k
    · subst h0
      simp [lookupA] at h
      subst h
      exact List.mem_cons_self _ _
    · simp [lookupA, h0] at h
      exact List.mem_cons_of_mem _ (ih h)

/-- Entries after a store: the stored pair or an old entry. -/
theorem mem_insertA (m : InstMap) (k : Inst) (v : ExcPair) (kv : Inst × ExcPair)
    (h : kv ∈ insertA m k v) : kv = (k, v) ∨ kv ∈ m := by
  induction m with
  | nil =>
    simp [insertA] at h
    exact Or.inl h
  | cons kv0 rest ih =>
    obtain ⟨k0, v0⟩ := kv0
    by_cases h0 : k0 = k
    · subst h0
      simp only [insertA, if_pos rfl] at h
      rcases List.mem_cons.mp h with heq | hm
      · exact Or.inl heq
      · exact Or.inr (List.mem_cons_of_mem _ hm)
    · simp only [insertA, if_neg h0] at h
      rcases List.mem_cons.mp h with heq | hm
      · exact Or.inr (heq ▸ List.mem_cons_self _ _)
      · rcases ih hm with h' | h'
        · exact Or.inl h'
        · exact Or.inr (List.mem_cons_of_mem _ h')

/-- No instruction is both an `ir.Raise` and an `ir.TryRaise`. -/
theorem not_raise_and_tryraise (i : Inst) :
    ¬(i.is_raise = true ∧ i.is_tryraise = true) := by
  cases i <;> simp [Inst.is_raise, Inst.is_tryraise]

/-! ## Lemmas about the scanning loop of `match` -/

/-- Every entry the loop adds comes from a raise-like instruction of the
right variant with its classified pair; pre-existing good entries stay
good. -/
theorem match_loop_entries (oracle : Oracle) (insts : List Inst)
    (rs ts rs' ts' : InstMap) (err : Option RewriteError)
    (h : match_loop oracle insts rs ts = (rs', ts', err))
    (hr : ∀ kv ∈ rs, kv.1.is_raise = true ∧ classify_exc oracle kv.1.exception = .ok kv.2)
    (ht : ∀ kv ∈ ts, kv.1.is_tryraise = true ∧ classify_exc oracle kv.1.exception = .ok kv.2) :
    (∀ kv ∈ rs', kv.1.is_raise = true ∧ classify_exc oracle kv.1.exception = .ok kv.2) ∧
    (∀ kv ∈ ts', kv.1.is_tryraise = true ∧ classify_exc oracle kv.1.exception = .ok kv.2) := by
  induction insts generalizing rs ts with
  | nil =>
    simp only [match_loop, Prod.mk.injEq] at h
    obtain ⟨h1, h2, _⟩ := h
    subst h1; subst h2
    exact ⟨hr, ht⟩
  | cons inst rest ih =>
    simp only [match_loop] at h
    cases hcl : classify_exc oracle inst.exception with
    | error e =>
      rw [hcl] at h
      simp only [Prod.mk.injEq] at h
      obtain ⟨h1, h2, _⟩ := h
      subst h1; subst h2
      exact ⟨hr, ht⟩
    | ok p =>
      rw [hcl] at h
      simp only at h
      by_cases hir : inst.is_raise = true
      · rw [if_pos hir] at h
        refine ih _ _ h ?_ ht
        intro kv hm
        rcases mem_insertA _ _ _ _ hm with heq | hm'
        · subst heq; exact ⟨hir, hcl⟩
        · exact hr kv hm'
      · rw [if_neg hir] at h
        by_cases hit : inst.is_tryraise = true
        · rw [if_pos hit] at h
          refine ih _ _ h hr ?_
          intro kv hm
          rcases mem_insertA _ _ _ _ hm with heq | hm'
          · subst heq; exact ⟨hit, hcl⟩
          · exact ht kv hm'
        · rw [if_neg hit] at h
          simp only [Prod.mk.injEq] at h
          obtain ⟨h1, h2, _⟩ := h
          subst h1; subst h2
          exact ⟨hr, ht⟩

/-- The loop never drops a recorded entry. -/
theorem match_loop_mono (oracle : Oracle) (insts : List Inst)
    (rs ts rs' ts' : InstMap) (err : Option RewriteError) (k : Inst)
    (h : match_loop oracle insts rs ts = (rs', ts', err)) :
    ((lookupA rs k).isSome = true → (lookupA rs' k).isSome = true) ∧
    ((lookupA ts k).isSome = true → (lookupA ts' k).isSome = true) := by
  induction insts generalizing rs ts with
  | nil =>
    simp only [match_loop, Prod.mk.injEq] at h
    obtain ⟨h1, h2, _⟩ := h
    subst h1; subst h2
    exact ⟨fun hx => hx, fun hx => hx⟩
  | cons inst rest ih =>
    simp only [match_loop] at h
    cases hcl : classify_exc oracle inst.exception with
    | error e =>
      rw [hcl] at h
      simp only [Prod.mk.injEq] at h
      obtain ⟨h1, h2, _⟩ := h
      subst h1; subst h2
      exact ⟨fun hx => hx, fun hx => hx⟩
    | ok p =>
      rw [hcl] at h
      simp only at h
      by_cases hir : inst.is_raise = true
      · rw [if_pos hir] at h
        have := ih _ _ h
        constructor
        · intro hx
          refine this.1 ?_
          rw [lookupA_insertA]
          by_cases hk : inst = k <;> simp [hk, hx]
        · exact this.2
      · rw [if_neg hir] at h
        by_cases hit : inst.is_tryraise = true
        · rw [if_pos hit] at h
          have := ih _ _ h
          constructor
          · exact this.1
          · intro hx
            refine this.2 ?_
            rw [lookupA_insertA]
            by_cases hk : inst = k <;> simp [hk, hx]
        · rw [if_neg hit] at h
          simp only [Prod.mk.injEq] at h
          obtain ⟨h1, h2, _⟩ := h
          subst h1; subst h2
          exact ⟨fun hx => hx, fun hx => hx⟩

/-- On a fully successful scan, every raise-like instruction of the list is
recorded in the dictionary of its variant. -/
theorem match_loop_records (oracle : Oracle) (insts : List Inst)
    (rs ts rs' ts' : InstMap) (k : Inst)
    (h : match_loop oracle insts rs ts = (rs', ts', none)) (hk : k ∈ insts) :
    (k.is_raise = true → (lookupA rs' k).isSome = true) ∧
    (k.is_tryraise = true → (lookupA ts' k).isSome = true) := by
  induction insts generalizing rs ts with
  | nil => cases hk
  | cons inst rest ih =>
    simp only [match_loop] at h
    cases hcl : classify_exc oracle inst.exception with
    | error e =>
      rw [hcl] at h
      simp only [Prod.mk.injEq] at h
      exact absurd h.2.2.symm (by simp)
    | ok p =>
      rw [hcl] at h
      simp only at h
      by_cases hir : inst.is_raise = true
      · rw [if_pos hir] at h
        rcases List.mem_cons.mp hk with rfl | hk'
        · constructor
          · intro _
            refine (match_loop_mono oracle rest _ _ _ _ _ k h).1 ?_
            rw [lookupA_insertA]
            simp
          · intro hit
            exact absurd ⟨hir, hit⟩ (not_raise_and_tryraise k)
        · exact ih _ _ h hk'
      · rw [if_neg hir] at h
        by_cases hit : inst.is_tryraise = true
        · rw [if_pos hit] at h
          rcases List.mem_cons.mp hk with rfl | hk'
          · constructor
            · intro hir'
              exact absurd hir' hir
            · intro _
              refine (match_loop_mono oracle rest _ _ _ _ _ k h).2 ?_
              rw [lookupA_insertA]
              simp
          · exact ih _ _ h hk'
        · rw [if_neg hit] at h
          simp only [Prod.mk.injEq] at h
          exact absurd h.2.2.symm (by simp)

/-! ## Lemmas about `match` and `apply` -/

/-- Unpacking a successful `match`: the loop ran to completion on the
block's raise-like instructions starting from empty dictionaries, the block
was remembered as given, and the returned flag is the emptiness test. -/
theorem match_rewrite_ok (oracle : Oracle) (b : Block) (st : MatchState) (flag : Bool)
    (h : match_rewrite oracle b = (st, .ok flag)) :
    match_loop oracle (find_insts b.body) [] [] = (st.raises, st.tryraises, none) ∧
    st.block = b ∧
    flag = decide (0 < st.raises.length + st.tryraises.length) := by
  unfold match_rewrite at h
  rcases hml : match_loop oracle (find_insts b.body) [] [] with ⟨rs, ts, err⟩
  rw [hml] at h
  cases err with
  | some e => simp at h
  | none =>
    simp only [Prod.mk.injEq] at h
    obtain ⟨h1, h2⟩ := h
    subst h1
    injection h2 with h3
    subst h3
    exact ⟨rfl, rfl, rfl⟩

/-- Every entry of the dictionaries a successful `match` builds is a
raise-like instruction of the correct variant mapped to its classified
`(type, args)` pair. -/
theorem match_rewrite_entries (oracle : Oracle) (b : Block) (st : MatchState)
    (flag : Bool) (hm : match_rewrite oracle b = (st, .ok flag)) (k : Inst) (v : ExcPair) :
    (lookupA st.raises k = some v →
      k.is_raise = true ∧ classify_exc oracle k.exception = .ok v) ∧
    (lookupA st.tryraises k = some v →
      k.is_tryraise = true ∧ classify_exc oracle k.exception = .ok v) := by
  obtain ⟨hml, _, _⟩ := match_rewrite_ok oracle b st flag hm
  have hinv := match_loop_entries oracle (find_insts b.body) [] [] _ _ _ hml
    (by intro kv hkv; cases hkv) (by intro kv hkv; cases hkv)
  exact ⟨fun hl => hinv.1 (k, v) (lookupA_mem _ _ _ hl),
    fun hl => hinv.2 (k, v) (lookupA_mem _ _ _ hl)⟩

/-- After a successful `match`, every raise-like instruction of the block
is recorded in the dictionary of its variant. -/
theorem match_rewrite_complete (oracle : Oracle) (b : Block) (st : MatchState)
    (flag : Bool) (hm : match_rewrite oracle b = (st, .ok flag)) (k : Inst)
    (hk : k ∈ b.body) :
    (k.is_raise = true → (lookupA st.raises k).isSome = true) ∧
    (k.is_tryraise = true → (lookupA st.tryraises k).isSome = true) := by
  obtain ⟨hml, _, _⟩ := match_rewrite_ok oracle b st flag hm
  constructor
  · intro hir
    have hk' : k ∈ find_insts b.body := by
      simp [find_insts, List.mem_filter, hk, hir]
    exact (match_loop_records oracle _ [] [] _ _ k hml hk').1 hir
  · intro hit
    have hk' : k ∈ find_insts b.body := by
      simp [find_insts, List.mem_filter, hk, hit]
    exact (match_loop_records oracle _ [] [] _ _ k hml hk').2 hit

/-- The body built by `apply` is the pointwise substitution of the original
body. -/
theorem foldl_append_body (st : MatchState) (l : List Inst) (nb : Block) :
    (l.foldl (fun nb inst => nb.append (subst_inst st inst)) nb).body =
      nb.body ++ l.map (subst_inst st) := by
  induction l generalizing nb with
  | nil => simp
  | cons i rest ih =>
    rw [List.foldl_cons, ih]
    simp [Block.append]

/-- `apply` returns a block whose body is the map of `subst_inst` over the
original body. -/
theorem apply_rewrite_body (st : MatchState) :
    ((apply_rewrite st).1).body = st.block.body.map (subst_inst st) := by
  simp [apply_rewrite, foldl_append_body, Block.clear, Block.copy]

/-! ## Sample fixtures used by the witnesses -/

/-- A sample oracle that resolves nothing (never consulted on the sample
block below, whose raises are both re-raises). -/
def sampleOracle : Oracle := fun _ => none

/-- A sample block: an opaque instruction, an unconditional re-raise and a
try-protected re-raise. -/
def sampleBlock : Block :=
  ⟨[.other 0 ⟨"f", 0⟩, .raise none ⟨"f", 1⟩, .tryRaise none ⟨"f", 2⟩], 0, ⟨"f", 0⟩⟩

/-- The state a successful `match` builds on `sampleBlock`. -/
def sampleState : MatchState :=
  ⟨[(.raise none ⟨"f", 1⟩, (none, none))],
   [(.tryRaise none ⟨"f", 2⟩, (none, none))], sampleBlock⟩

example : match_rewrite sampleOracle sampleBlock = (sampleState, .ok true) := rfl

/-! ## Claim theorems about `match` and `apply` -/

/-- C3: `apply` produces a body that is the pointwise substitution of the
original body (so relative order is preserved position-for-position), and
the substitution is the identity on every instruction that is a key of
neither dictionary. -/
theorem order_preservation (st : MatchState) (i : Inst)
    (h1 : lookupA st.raises i = none) (h2 : lookupA st.tryraises i = none) :
    ((apply_rewrite st).1).body = st.block.body.map (subst_inst st) ∧
    subst_inst st i = i := by
  refine ⟨apply_rewrite_body st, ?_⟩
  simp [subst_inst, h1, h2]

/-- Witness for C3 on `sampleState` and its non-matched opaque
instruction. -/
theorem order_preservation_witness :
    lookupA sampleState.raises (.other 0 ⟨"f", 0⟩) = none ∧
    lookupA sampleState.tryraises (.other 0 ⟨"f", 0⟩) = none ∧
    (((apply_rewrite sampleState).1).body
        = sampleState.block.body.map (subst_inst sampleState) ∧
      subst_inst sampleState (.other 0 ⟨"f", 0⟩) = .other 0 ⟨"f", 0⟩) :=
  ⟨rfl, rfl, order_preservation sampleState (.other 0 ⟨"f", 0⟩) rfl rfl⟩

/-- C4: a raise-like instruction with an absent exception operand
(re-raise) is classified `(none, none)` by *every* oracle (so the
constant-inference oracle plays no role), and — independently for each
variant — whenever such an instruction is in the matched block, `match`
recorded `(none, none)` for it and `apply` replaces it by the static
instruction of the same variant carrying type `none`, args `none` and the
original location. -/
theorem reraise_round_trip (oracle oracle2 : Oracle) (b : Block) (st : MatchState)
    (flag : Bool) (l l2 : Loc)
    (hm : match_rewrite oracle b = (st, .ok flag)) :
    classify_exc oracle2 (Inst.raise none l).exception = .ok (none, none) ∧
    classify_exc oracle2 (Inst.tryRaise none l2).exception = .ok (none, none) ∧
    (Inst.raise none l ∈ b.body →
      lookupA st.raises (.raise none l) = some (none, none) ∧
      subst_inst st (.raise none l) = .staticRaise none none l) ∧
    (Inst.tryRaise none l2 ∈ b.body →
      lookupA st.tryraises (.tryRaise none l2) = some (none, none) ∧
      subst_inst st (.tryRaise none l2) = .staticTryRaise none none l2) := by
  have hnone : lookupA st.raises (.tryRaise none l2) = none := by
    rcases hv : lookupA st.raises (.tryRaise none l2) with _ | v
    · rfl
    · have hent := (match_rewrite_entries oracle b st flag hm _ v).1 hv
      simp [Inst.is_raise] at hent
  refine ⟨rfl, rfl, ?_, ?_⟩
  · intro h1
    have hr : lookupA st.raises (.raise none l) = some (none, none) := by
      have hs := (match_rewrite_complete oracle b st flag hm _ h1).1 rfl
      rcases hv : lookupA st.raises (.raise none l) with _ | v
      · rw [hv] at hs; cases hs
      · have hent := (match_rewrite_entries oracle b st flag hm _ v).1 hv
        have hval : (Except.ok ((none : Option Const), (none : Option (List Const)))
            : Except RewriteError ExcPair) = .ok v := by
          rw [← hent.2]
          rfl
        injection hval with hval'
        rw [← hval']
    exact ⟨hr, by simp [subst_inst, hr, Inst.loc]⟩
  · intro h2
    have ht : lookupA st.tryraises (.tryRaise none l2) = some (none, none) := by
      have hs := (match_rewrite_complete oracle b st flag hm _ h2).2 rfl
      rcases hv : lookupA st.tryraises (.tryRaise none l2) with _ | v
      · rw [hv] at hs; cases hs
      · have hent := (match_rewrite_entries oracle b st flag hm _ v).2 hv
        have hval : (Except.ok ((none : Option Const), (none : Option (List Const)))
            : Except RewriteError ExcPair) = .ok v := by
          rw [← hent.2]
          rfl
        injection hval with hval'
        rw [← hval']
    exact ⟨ht, by simp [subst_inst, hnone, ht, Inst.loc]⟩

/-- Witness for C4 on `sampleBlock`. -/
theorem reraise_round_trip_witness :
    match_rewrite sampleOracle sampleBlock = (sampleState, .ok true) ∧
    (classify_exc sampleOracle (Inst.raise none ⟨"f", 1⟩).exception = .ok (none, none) ∧
     classify_exc sampleOracle (Inst.tryRaise none ⟨"f", 2⟩).exception = .ok (none, none) ∧
     (Inst.raise none ⟨"f", 1⟩ ∈ sampleBlock.body →
       lookupA sampleState.raises (.raise none ⟨"f", 1⟩) = some (none, none) ∧
       subst_inst sampleState (.raise none ⟨"f", 1⟩) = .staticRaise none none ⟨"f", 1⟩) ∧
     (Inst.tryRaise none ⟨"f", 2⟩ ∈ sampleBlock.body →
       lookupA sampleState.tryraises (.tryRaise none ⟨"f", 2⟩) = some (none, none) ∧
       subst_inst sampleState (.tryRaise none ⟨"f", 2⟩)
         = .staticTryRaise none none ⟨"f", 2⟩)) :=
  ⟨rfl, reraise_round_trip sampleOracle sampleOracle sampleBlock sampleState true
    ⟨"f", 1⟩ ⟨"f", 2⟩ rfl⟩

/-- C6: a successful `match` reports `true` exactly when the combined
number of entries of the two dictionaries is nonzero; in particular on a
block with no raise-like instruction it reports `false`. -/
theorem match_applicable_iff (oracle : Oracle) (b : Block) (st : MatchState) (flag : Bool)
    (hm : match_rewrite oracle b = (st, .ok flag)) :
    (flag = true ↔ 0 < st.raises.length + st.tryraises.length) ∧
    (b.body.all (fun i => !(i.is_raise || i.is_tryraise)) = true → flag = false) := by
  obtain ⟨hml, _, hflag⟩ := match_rewrite_ok oracle b st flag hm
  constructor
  · rw [hflag]; simp
  · intro hall
    have hnil : find_insts b.body = [] := by
      simp only [find_insts, List.filter_eq_nil_iff]
      intro a ha
      have := List.all_eq_true.mp hall a ha
      simpa using this
    rw [hnil] at hml
    simp only [match_loop, Prod.mk.injEq] at hml
    obtain ⟨hA, hB, _⟩ := hml
    rw [hflag, ← hA, ← hB]
    rfl

/-- Witness for C6 on `sampleBlock`. -/
theorem match_applicable_iff_witness :
    match_rewrite sampleOracle sampleBlock = (sampleState, .ok true) ∧
    ((true = true ↔ 0 < sampleState.raises.length + sampleState.tryraises.length) ∧
     (sampleBlock.body.all (fun i => !(i.is_raise || i.is_tryraise)) = true →
       true = false)) :=
  ⟨rfl, match_applicable_iff sampleOracle sampleBlock sampleState true rfl⟩

/-- C7: `apply` substitutes any instruction recorded in `self.raises` by a
`StaticRaise`, and any instruction recorded in `self.tryraises` by a
`StaticTryRaise` (never the other variant) — each variant independently —
carrying the original instruction's location and the `(type, args)` pair
recorded for it at match time. -/
theorem static_variant_preserved (oracle : Oracle) (b : Block) (st : MatchState)
    (flag : Bool) (v v2 : Option Var) (l l2 : Loc) (p q : ExcPair)
    (hm : match_rewrite oracle b = (st, .ok flag)) :
    (lookupA st.raises (.raise v l) = some p →
      subst_inst st (.raise v l) = .staticRaise p.1 p.2 l) ∧
    (lookupA st.tryraises (.tryRaise v2 l2) = some q →
      subst_inst st (.tryRaise v2 l2) = .staticTryRaise q.1 q.2 l2) := by
  constructor
  · intro h1
    obtain ⟨t, a⟩ := p
    simp [subst_inst, h1, Inst.loc]
  · intro h2
    obtain ⟨t, a⟩ := q
    have hnone : lookupA st.raises (.tryRaise v2 l2) = none := by
      rcases hv : lookupA st.raises (.tryRaise v2 l2) with _ | w
      · rfl
      · have hent := (match_rewrite_entries oracle b st flag hm _ w).1 hv
        simp [Inst.is_raise] at hent
    simp [subst_inst, hnone, h2, Inst.loc]

/-- Witness for C7 on `sampleState`. -/
theorem static_variant_preserved_witness :
    match_rewrite sampleOracle sampleBlock = (sampleState, .ok true) ∧
    ((lookupA sampleState.raises (.raise none ⟨"f", 1⟩) = some (none, none) →
      subst_inst sampleState (.raise none ⟨"f", 1⟩) = .staticRaise none none ⟨"f", 1⟩) ∧
     (lookupA sampleState.tryraises (.tryRaise none ⟨"f", 2⟩) = some (none, none) →
      subst_inst sampleState (.tryRaise none ⟨"f", 2⟩)
        = .staticTryRaise none none ⟨"f", 2⟩)) :=
  ⟨rfl, static_variant_preserved sampleOracle sampleBlock sampleState true
    none none ⟨"f", 1⟩ ⟨"f", 2⟩ (none, none) (none, none) rfl⟩

/-- C8: neither phase mutates the original block: the block `match` stores
is the given one unchanged (also when the scan aborted with an error), and
`apply` leaves the threaded state — hence the original block — untouched,
building its result as a brand-new block. -/
theorem no_block_mutation (oracle : Oracle) (b : Block) :
    (match_rewrite oracle b).1.block = b ∧
    (apply_rewrite (match_rewrite oracle b).1).2 = (match_rewrite oracle b).1 ∧
    (apply_rewrite (match_rewrite oracle b).1).2.block = b := by
  have h1 : ∀ rs ts err, match_loop oracle (find_insts b.body) [] [] = (rs, ts, err) →
      (match_rewrite oracle b).1.block = b := by
    intro rs ts err hml
    unfold match_rewrite
    rw [hml]
    cases err <;> rfl
  exact ⟨h1 _ _ _ rfl, rfl, h1 _ _ _ rfl⟩

/-- C10: after a successful `match`, the block `apply` returns has exactly
as many instructions as the original block. -/
theorem apply_preserves_length (oracle : Oracle) (b : Block) (st : MatchState)
    (flag : Bool) (hm : match_rewrite oracle b = (st, .ok flag)) :
    ((apply_rewrite st).1).body.length = b.body.length := by
  obtain ⟨_, hb, _⟩ := match_rewrite_ok oracle b st flag hm
  rw [apply_rewrite_body, hb, List.length_map]

/-- Witness for C10 on `sampleBlock`. -/
theorem apply_preserves_length_witness :
    match_rewrite sampleOracle sampleBlock = (sampleState, .ok true) ∧
    ((apply_rewrite sampleState).1).body.length = sampleBlock.body.length :=
  ⟨rfl, apply_preserves_length sampleOracle sampleBlock sampleState true rfl⟩
